import Mathlib

/-!
# Graph Tool — verification of the graph store and edge-geometry engine

Shallow embedding of `src/main.go` (the repository holds two concatenated
variants of the program; the first is embedded in namespace `V1`, the second
in namespace `V2`).  Go slices of `int` become `List ℤ`; Go `float64`
coordinates become `ℝ`; the adjacency matrix `[][]int` becomes
`List (List ℤ)`.  Out-of-range writes cannot occur in the embedded
operations because every mutation is guarded exactly as in the source.
-/

set_option autoImplicit false

/-- `image/color`'s RGBA value: four 8-bit channels (we never compute on
colors, so plain naturals suffice). -/
structure RGBA where
  r : ℕ
  g : ℕ
  b : ℕ
  a : ℕ
deriving DecidableEq

/-- `type Vertex struct { X, Y float64; Label string; Color color.RGBA }`. -/
structure Vertex where
  X : ℝ
  Y : ℝ
  Label : String
  Color : RGBA

instance : Inhabited Vertex := ⟨⟨0, 0, "", ⟨0, 0, 0, 0⟩⟩⟩

/-- Write `f` at index `n` of a list, leaving the list unchanged when `n` is
out of range: the effect of `l[n] = f(l[n])` on a Go slice under an in-range
guard, made total. -/
def listModify {α : Type} (f : α → α) : ℕ → List α → List α
  | 0, [] => []
  | 0, a :: as => f a :: as
  | _ + 1, [] => []
  | n + 1, a :: as => a :: listModify f n as

/-- Apply `f` to entry `(i, j)` of a matrix: `m[i][j] = f(m[i][j])`. -/
def matModify (f : ℤ → ℤ) (i j : ℕ) (m : List (List ℤ)) : List (List ℤ) :=
  listModify (listModify f j) i m

/-- Read entry `(i, j)` of the adjacency matrix (`m[i][j]`), with 0 for an
out-of-range read. -/
def getEntry (m : List (List ℤ)) (i j : ℕ) : ℤ :=
  (m.getD i []).getD j 0

namespace V1

/-- `type Graph struct { Vertices []Vertex; AdjMatrix [][]int }` of the
first variant. -/
structure Graph where
  Vertices : List Vertex
  AdjMatrix : List (List ℤ)

/-- `func (g *Graph) AddVertex(x, y float64, label string, clr color.RGBA)`:
append the vertex, append a 0 to every existing row, then append a fresh
zero row of the new length. -/
def AddVertex (g : Graph) (x y : ℝ) (label : String) (clr : RGBA) : Graph :=
  let vs := g.Vertices ++ [⟨x, y, label, clr⟩]
  { Vertices := vs
    AdjMatrix := (g.AdjMatrix.map (fun row => row ++ [0])) ++ [List.replicate vs.length 0] }

/-- `func (g *Graph) DeleteVertex(index int)`: silently ignore an
out-of-range index; otherwise remove the vertex, its matrix row, and the
matching column of every remaining row. -/
def DeleteVertex (g : Graph) (index : ℤ) : Graph :=
  if index < 0 ∨ (g.Vertices.length : ℤ) ≤ index then g
  else
    { Vertices := g.Vertices.eraseIdx index.toNat
      AdjMatrix := (g.AdjMatrix.eraseIdx index.toNat).map (fun row => row.eraseIdx index.toNat) }

/-- `func (g *Graph) DeleteEdge(v1, v2 int)` of the first variant: silently
ignore out-of-range indices; a loop entry is decremented only when positive,
a non-loop pair is decremented unconditionally at both mirrored entries. -/
def DeleteEdge (g : Graph) (v1 v2 : ℤ) : Graph :=
  if v1 < 0 ∨ v2 < 0 ∨ (g.Vertices.length : ℤ) ≤ v1 ∨ (g.Vertices.length : ℤ) ≤ v2 then g
  else if v1 = v2 then
    { g with AdjMatrix :=
        if 0 < getEntry g.AdjMatrix v1.toNat v1.toNat then
          matModify (fun x => x - 1) v1.toNat v1.toNat g.AdjMatrix
        else g.AdjMatrix }
  else
    let m1 := matModify (fun x => x - 1) v1.toNat v2.toNat g.AdjMatrix
    { g with AdjMatrix := matModify (fun x => x - 1) v2.toNat v1.toNat m1 }

/-- `func (g *Graph) AddEdge(v1, v2 int)` of the first variant: silently
ignore out-of-range indices; increment `(v1, v2)`, and mirror to `(v2, v1)`
unless the edge is a loop. -/
def AddEdge (g : Graph) (v1 v2 : ℤ) : Graph :=
  if v1 < 0 ∨ v2 < 0 ∨ (g.Vertices.length : ℤ) ≤ v1 ∨ (g.Vertices.length : ℤ) ≤ v2 then g
  else
    let m1 := matModify (fun x => x + 1) v1.toNat v2.toNat g.AdjMatrix
    { g with AdjMatrix := if v1 = v2 then m1 else matModify (fun x => x + 1) v2.toNat v1.toNat m1 }

/-- The edge total of `printGraphInfo`: `numEdges += AdjMatrix[i][j]` over
every ordered pair, i.e. the plain sum of all matrix entries. -/
def numEdges (m : List (List ℤ)) : ℤ :=
  (m.map (fun row => row.sum)).sum

/-- The per-vertex degree of `printGraphInfo`:
`if AdjMatrix[i][j] > 0 { degrees[i] += AdjMatrix[i][j] }` over row `i`. -/
def degreeOf (m : List (List ℤ)) (i : ℕ) : ℤ :=
  ((m.getD i []).map (fun e => if 0 < e then e else 0)).sum

end V1

namespace V2

/-- `type Graph struct { Vertices []Vertex; AdjMatrix [][]int; IsDirected bool }`
of the second variant. -/
structure Graph where
  Vertices : List Vertex
  AdjMatrix : List (List ℤ)
  IsDirected : Bool

/-- `AddVertex` of the second variant (same body as the first). -/
def AddVertex (g : Graph) (x y : ℝ) (label : String) (clr : RGBA) : Graph :=
  let vs := g.Vertices ++ [⟨x, y, label, clr⟩]
  { g with
    Vertices := vs
    AdjMatrix := (g.AdjMatrix.map (fun row => row ++ [0])) ++ [List.replicate vs.length 0] }

/-- `DeleteEdge` of the second variant: guard, then `AdjMatrix[v1][v2] -= 1`
with no clamp and no mirroring. -/
def DeleteEdge (g : Graph) (v1 v2 : ℤ) : Graph :=
  if v1 < 0 ∨ v2 < 0 ∨ (g.Vertices.length : ℤ) ≤ v1 ∨ (g.Vertices.length : ℤ) ≤ v2 then g
  else { g with AdjMatrix := matModify (fun x => x - 1) v1.toNat v2.toNat g.AdjMatrix }

/-- `AddEdge` of the second variant: guard, increment `(v1, v2)`, and mirror
to `(v2, v1)` only when undirected and not a loop. -/
def AddEdge (g : Graph) (v1 v2 : ℤ) : Graph :=
  if v1 < 0 ∨ v2 < 0 ∨ (g.Vertices.length : ℤ) ≤ v1 ∨ (g.Vertices.length : ℤ) ≤ v2 then g
  else
    let m1 := matModify (fun x => x + 1) v1.toNat v2.toNat g.AdjMatrix
    { g with AdjMatrix :=
        if g.IsDirected = false ∧ ¬(v1 = v2) then matModify (fun x => x + 1) v2.toNat v1.toNat m1
        else m1 }

end V2

/-- The red color used for new vertices: `color.RGBA{255, 0, 0, 255}`. -/
def redC : RGBA := ⟨255, 0, 0, 255⟩

/-- The two-vertex graph of §8's concrete scenario:
`addVertex(0,0,"V1",red)` then `addVertex(100,0,"V2",red)` from the empty
graph. -/
noncomputable def gTwo : V1.Graph :=
  V1.AddVertex (V1.AddVertex ⟨[], []⟩ 0 0 "V1" redC) 100 0 "V2" redC

/-- §8's scenario continued: `addEdge(0,1)` twice on `gTwo`. -/
noncomputable def gScenario : V1.Graph :=
  V1.AddEdge (V1.AddEdge gTwo 0 1) 0 1

/-- The same two-vertex graph in the second variant, in undirected mode. -/
noncomputable def gTwo2 : V2.Graph :=
  V2.AddVertex (V2.AddVertex ⟨[], [], false⟩ 0 0 "V1" redC) 100 0 "V2" redC

/-- A well-formed `n`-vertex adjacency matrix: `n` rows of `n` entries
(the invariant the program maintains between vertex count and matrix). -/
def SquareM (m : List (List ℤ)) (n : ℕ) : Prop :=
  m.length = n ∧ ∀ row ∈ m, row.length = n

instance (m : List (List ℤ)) (n : ℕ) : Decidable (SquareM m n) := by
  unfold SquareM; infer_instance

/-! ### Lemmas about `listModify`, `matModify` and `getEntry` -/

theorem length_listModify {α : Type} (f : α → α) :
    ∀ (n : ℕ) (l : List α), (listModify f n l).length = l.length
  | n, [] => by cases n <;> rfl
  | 0, _ :: _ => rfl
  | n + 1, _ :: as => congrArg Nat.succ (length_listModify f n as)

theorem listModify_of_length_le {α : Type} (f : α → α) :
    ∀ (n : ℕ) (l : List α), l.length ≤ n → listModify f n l = l
  | n, [], _ => by cases n <;> rfl
  | n + 1, a :: as, h =>
    congrArg (a :: ·) (listModify_of_length_le f n as (Nat.le_of_succ_le_succ h))

theorem getD_listModify_ne {α : Type} (f : α → α) :
    ∀ (p n : ℕ) (l : List α) (d : α), p ≠ n →
      (listModify f n l).getD p d = l.getD p d
  | _, n, [], _, _ => by cases n <;> rfl
  | 0, 0, _ :: _, _, h => absurd rfl h
  | 0, _ + 1, _ :: _, _, _ => rfl
  | _ + 1, 0, _ :: _, _, _ => rfl
  | p + 1, n + 1, _ :: as, d, h => by
    simpa [listModify] using getD_listModify_ne f p n as d (fun hpn => h (by rw [hpn]))

theorem getD_listModify_self {α : Type} (f : α → α) :
    ∀ (n : ℕ) (l : List α) (d : α), n < l.length →
      (listModify f n l).getD n d = f (l.getD n d)
  | 0, _ :: _, _, _ => rfl
  | n + 1, _ :: as, d, h => by
    simpa [listModify] using getD_listModify_self f n as d (Nat.lt_of_succ_lt_succ h)

theorem listModify_listModify_same {α : Type} (f g : α → α) :
    ∀ (n : ℕ) (l : List α),
      listModify f n (listModify g n l) = listModify (fun a => f (g a)) n l
  | n, [] => by cases n <;> rfl
  | 0, _ :: _ => rfl
  | n + 1, a :: as => congrArg (a :: ·) (listModify_listModify_same f g n as)

theorem listModify_comm {α : Type} (f g : α → α) :
    ∀ (n p : ℕ) (l : List α), n ≠ p →
      listModify f n (listModify g p l) = listModify g p (listModify f n l)
  | n, p, [], _ => by cases n <;> cases p <;> rfl
  | 0, 0, _ :: _, h => absurd rfl h
  | 0, _ + 1, _ :: _, _ => rfl
  | _ + 1, 0, _ :: _, _ => rfl
  | n + 1, p + 1, a :: as, h =>
    congrArg (a :: ·) (listModify_comm f g n p as (fun hnp => h (by rw [hnp])))

theorem listModify_id {α : Type} (f : α → α) (h : ∀ a, f a = a) :
    ∀ (n : ℕ) (l : List α), listModify f n l = l
  | n, [] => by cases n <;> rfl
  | 0, a :: as => by rw [listModify, h a]
  | n + 1, a :: as => congrArg (a :: ·) (listModify_id f h n as)

theorem getD_mem {α : Type} :
    ∀ (l : List α) (n : ℕ) (d : α), n < l.length → l.getD n d ∈ l
  | a :: _, 0, _, _ => List.mem_cons_self a _
  | a :: as, n + 1, d, h =>
    List.mem_cons_of_mem a (getD_mem as n d (Nat.lt_of_succ_lt_succ h))

theorem getEntry_matModify_ne (f : ℤ → ℤ) (i j p q : ℕ) (m : List (List ℤ))
    (h : ¬(p = i ∧ q = j)) : getEntry (matModify f i j m) p q = getEntry m p q := by
  unfold getEntry matModify
  by_cases hpi : p = i
  · subst hpi
    have hq : q ≠ j := fun hq => h ⟨rfl, hq⟩
    by_cases hlen : p < m.length
    · rw [getD_listModify_self _ p m [] hlen, getD_listModify_ne _ q j _ 0 hq]
    · rw [listModify_of_length_le _ p m (Nat.le_of_not_lt hlen)]
  · rw [getD_listModify_ne _ p i m [] hpi]

theorem getEntry_matModify_self (f : ℤ → ℤ) (i j : ℕ) (m : List (List ℤ))
    (hi : i < m.length) (hj : j < (m.getD i []).length) :
    getEntry (matModify f i j m) i j = f (getEntry m i j) := by
  unfold getEntry matModify
  rw [getD_listModify_self _ i m [] hi, getD_listModify_self f j _ 0 hj]

theorem matModify_comm_row (f g : ℤ → ℤ) (i j p q : ℕ) (m : List (List ℤ))
    (h : i ≠ p) :
    matModify f i j (matModify g p q m) = matModify g p q (matModify f i j m) :=
  listModify_comm _ _ i p m h

theorem matModify_sub_add (i j : ℕ) (m : List (List ℤ)) :
    matModify (fun x => x - 1) i j (matModify (fun x => x + 1) i j m) = m := by
  unfold matModify
  rw [listModify_listModify_same]
  refine listModify_id _ (fun row => ?_) i m
  rw [listModify_listModify_same]
  exact listModify_id _ (fun a => by omega) j row

/-! ### C1 — deleteEdge is claimed to clamp entries at 0 -/

/-- C1: the code violates the claim.  On the two-vertex graph whose matrix is
all zero, `DeleteEdge(0, 1)` decrements the non-loop entries unconditionally:
both mirrored entries become −1 in the first variant, and entry (0,1) becomes
−1 in the second variant, instead of staying clamped at 0. -/
theorem deleteEdge_zero_entry_goes_negative :
    getEntry gTwo.AdjMatrix 0 1 = 0
    ∧ getEntry (V1.DeleteEdge gTwo 0 1).AdjMatrix 0 1 = -1
    ∧ getEntry (V1.DeleteEdge gTwo 0 1).AdjMatrix 1 0 = -1
    ∧ getEntry (V2.DeleteEdge gTwo2 0 1).AdjMatrix 0 1 = -1 := by decide

/-! ### C2 — the §8 scenario: two undirected parallel edges -/

/-- C2 counterexample: in the scenario (two vertices, `addEdge(0,1)` twice),
the edge count `printGraphInfo` reports is the sum of all matrix entries,
which is not 2. -/
theorem scenario_edge_count_not_two : ¬ V1.numEdges gScenario.AdjMatrix = 2 := by
  decide

/-- C2 amended: after `addVertex(0,0,"V1",red)`, `addVertex(100,0,"V2",red)`
and `addEdge(0,1)` twice, matrix[0][1] = matrix[1][0] = 2 and both reported
degrees are 2, but the reported edge count is 4: `printGraphInfo` sums every
matrix entry, counting each undirected edge once per orientation. -/
theorem scenario_two_parallel_edges_report :
    getEntry gScenario.AdjMatrix 0 1 = 2
    ∧ getEntry gScenario.AdjMatrix 1 0 = 2
    ∧ V1.numEdges gScenario.AdjMatrix = 4
    ∧ V1.degreeOf gScenario.AdjMatrix 0 = 2
    ∧ V1.degreeOf gScenario.AdjMatrix 1 = 2 := by decide

/-! ### C3 — addEdge/deleteEdge round trip -/

/-- C3 counterexample: in the second variant (undirected mode),
`AddEdge(0, 1)` followed by `DeleteEdge(0, 1)` does not restore the matrix:
`DeleteEdge` only decrements entry (0,1), so the mirrored entry (1,0) keeps
the extra increment. -/
theorem variant2_round_trip_mirror_not_restored :
    (V2.DeleteEdge (V2.AddEdge gTwo2 0 1) 0 1).AdjMatrix ≠ gTwo2.AdjMatrix := by
  decide

/-- C3 amended: in the first variant, `AddEdge(i, j)` immediately followed by
`DeleteEdge(i, j)` on an in-range non-loop pair restores the whole graph
exactly (both mirrored entries are decremented back).  In the second variant
in undirected mode, the same round trip leaves the matrix with exactly one
extra unit at the mirrored entry (j, i): entry (i, j) is restored but the
mirror is not. -/
theorem addEdge_deleteEdge_round_trip :
    (∀ (g : V1.Graph) (i j : ℤ), 0 ≤ i → 0 ≤ j →
      i < (g.Vertices.length : ℤ) → j < (g.Vertices.length : ℤ) → i ≠ j →
      V1.DeleteEdge (V1.AddEdge g i j) i j = g)
    ∧ (∀ (g : V2.Graph) (i j : ℤ), 0 ≤ i → 0 ≤ j →
      i < (g.Vertices.length : ℤ) → j < (g.Vertices.length : ℤ) → i ≠ j →
      g.IsDirected = false →
      (V2.DeleteEdge (V2.AddEdge g i j) i j).AdjMatrix
        = matModify (fun x => x + 1) j.toNat i.toNat g.AdjMatrix) := by
  constructor
  · intro g i j h0i h0j hi hj hij
    have hguard : ¬(i < 0 ∨ j < 0 ∨ (g.Vertices.length : ℤ) ≤ i
        ∨ (g.Vertices.length : ℤ) ≤ j) := by omega
    have htn : i.toNat ≠ j.toNat := by omega
    simp only [V1.AddEdge, V1.DeleteEdge, if_neg hguard, if_neg hij]
    rw [matModify_comm_row _ _ i.toNat j.toNat j.toNat i.toNat _ htn,
      matModify_sub_add, matModify_sub_add]
  · intro g i j h0i h0j hi hj hij hdir
    have hguard : ¬(i < 0 ∨ j < 0 ∨ (g.Vertices.length : ℤ) ≤ i
        ∨ (g.Vertices.length : ℤ) ≤ j) := by omega
    simp only [V2.AddEdge, V2.DeleteEdge, if_neg hguard,
      if_pos (And.intro hdir hij)]
    rw [matModify_comm_row _ _ i.toNat j.toNat j.toNat i.toNat _ (by omega),
      matModify_sub_add]

/-- C3 witness: the first variant's round trip at the concrete two-vertex
graph and the pair (0, 1). -/
theorem addEdge_deleteEdge_round_trip_witness :
    V1.DeleteEdge (V1.AddEdge gTwo 0 1) 0 1 = gTwo :=
  addEdge_deleteEdge_round_trip.1 gTwo 0 1 (by decide) (by decide) (by decide)
    (by decide) (by decide)

/-! ### C5 — a self-loop is added exactly once -/

/-- C5: in both variants and regardless of the directed mode flag,
`AddEdge(i, i)` on an in-range index of a well-formed graph increments
matrix[i][i] by exactly 1 and leaves every other entry unchanged. -/
theorem addEdge_loop_increments_once :
    (∀ (g : V1.Graph) (i : ℤ), 0 ≤ i → i < (g.Vertices.length : ℤ) →
      SquareM g.AdjMatrix g.Vertices.length →
      getEntry (V1.AddEdge g i i).AdjMatrix i.toNat i.toNat
          = getEntry g.AdjMatrix i.toNat i.toNat + 1
        ∧ ∀ p q : ℕ, ¬(p = i.toNat ∧ q = i.toNat) →
          getEntry (V1.AddEdge g i i).AdjMatrix p q = getEntry g.AdjMatrix p q)
    ∧ (∀ (g : V2.Graph) (i : ℤ), 0 ≤ i → i < (g.Vertices.length : ℤ) →
      SquareM g.AdjMatrix g.Vertices.length →
      getEntry (V2.AddEdge g i i).AdjMatrix i.toNat i.toNat
          = getEntry g.AdjMatrix i.toNat i.toNat + 1
        ∧ ∀ p q : ℕ, ¬(p = i.toNat ∧ q = i.toNat) →
          getEntry (V2.AddEdge g i i).AdjMatrix p q = getEntry g.AdjMatrix p q) := by
  constructor
  · intro g i h0 hi hsq
    have hguard : ¬(i < 0 ∨ i < 0 ∨ (g.Vertices.length : ℤ) ≤ i
        ∨ (g.Vertices.length : ℤ) ≤ i) := by omega
    have hlen : i.toNat < g.AdjMatrix.length := by rw [hsq.1]; omega
    have hrow : i.toNat < (g.AdjMatrix.getD i.toNat []).length := by
      rw [hsq.2 _ (getD_mem _ _ _ hlen)]; omega
    simp only [V1.AddEdge, if_neg hguard, if_pos rfl]
    exact ⟨getEntry_matModify_self _ _ _ _ hlen hrow,
      fun p q hpq => getEntry_matModify_ne _ _ _ _ _ _ hpq⟩
  · intro g i h0 hi hsq
    have hguard : ¬(i < 0 ∨ i < 0 ∨ (g.Vertices.length : ℤ) ≤ i
        ∨ (g.Vertices.length : ℤ) ≤ i) := by omega
    have hlen : i.toNat < g.AdjMatrix.length := by rw [hsq.1]; omega
    have hrow : i.toNat < (g.AdjMatrix.getD i.toNat []).length := by
      rw [hsq.2 _ (getD_mem _ _ _ hlen)]; omega
    simp only [V2.AddEdge, if_neg hguard, eq_self_iff_true, not_true, and_false,
      if_false]
    exact ⟨getEntry_matModify_self _ _ _ _ hlen hrow,
      fun p q hpq => getEntry_matModify_ne _ _ _ _ _ _ hpq⟩

/-- C5 witness: adding a loop at vertex 0 of the concrete two-vertex graph
(first variant) takes matrix[0][0] from 0 to 1. -/
theorem addEdge_loop_increments_once_witness :
    getEntry (V1.AddEdge gTwo 0 0).AdjMatrix 0 0 = getEntry gTwo.AdjMatrix 0 0 + 1 :=
  (addEdge_loop_increments_once.1 gTwo 0 (by decide) (by decide) (by decide)).1

/-! ### C6 — out-of-range indices are silent no-ops -/

/-- C6: an out-of-range index argument makes `DeleteVertex`, `AddEdge` and
`DeleteEdge` silent no-ops: the vertex sequence and the whole multiplicity
matrix are left unchanged (the result is the very same graph). -/
theorem out_of_range_ops_are_noops (g : V1.Graph) (i j : ℤ) :
    ((i < 0 ∨ (g.Vertices.length : ℤ) ≤ i) → V1.DeleteVertex g i = g)
    ∧ ((i < 0 ∨ j < 0 ∨ (g.Vertices.length : ℤ) ≤ i ∨ (g.Vertices.length : ℤ) ≤ j) →
      V1.AddEdge g i j = g ∧ V1.DeleteEdge g i j = g) := by
  refine ⟨fun h => ?_, fun h => ⟨?_, ?_⟩⟩
  · simp only [V1.DeleteVertex, if_pos h]
  · simp only [V1.AddEdge, if_pos h]
  · simp only [V1.DeleteEdge, if_pos h]

/-! ### C7 — deleteVertex removes one row/column and shifts indices -/

theorem length_eraseIdx_lt {α : Type} :
    ∀ (l : List α) (k : ℕ), k < l.length → (l.eraseIdx k).length = l.length - 1
  | _ :: _, 0, _ => rfl
  | a :: as, k + 1, h => by
    have hk : k < as.length := Nat.lt_of_succ_lt_succ h
    have : 0 < as.length := Nat.lt_of_le_of_lt (Nat.zero_le k) hk
    simp only [List.eraseIdx, List.length_cons, length_eraseIdx_lt as k hk]
    omega

theorem getD_eraseIdx_lt {α : Type} :
    ∀ (l : List α) (k i : ℕ) (d : α), i < k →
      (l.eraseIdx k).getD i d = l.getD i d
  | [], k, _, _, _ => by cases k <;> rfl
  | _ :: _, _ + 1, 0, _, _ => rfl
  | _ :: as, k + 1, i + 1, d, h => by
    simpa [List.eraseIdx] using getD_eraseIdx_lt as k i d (Nat.lt_of_succ_lt_succ h)

theorem getD_eraseIdx_ge {α : Type} :
    ∀ (l : List α) (k i : ℕ) (d : α), k ≤ i → k < l.length →
      (l.eraseIdx k).getD i d = l.getD (i + 1) d
  | [], _, _, _, _, hl => absurd hl (by simp)
  | _ :: _, 0, _, _, _, _ => rfl
  | _ :: as, k + 1, i + 1, d, hk, hl => by
    simpa [List.eraseIdx] using
      getD_eraseIdx_ge as k i d (Nat.le_of_succ_le_succ hk) (Nat.lt_of_succ_lt_succ hl)

theorem getD_map {α β : Type} (f : α → β) :
    ∀ (l : List α) (i : ℕ) (d : α) (e : β), i < l.length →
      (l.map f).getD i e = f (l.getD i d)
  | _ :: _, 0, _, _, _ => rfl
  | _ :: as, i + 1, d, e, h => getD_map f as i d e (Nat.lt_of_succ_lt_succ h)

/-- The survivor re-indexing of `deleteVertex(k)`: a surviving index `i` of
the new graph corresponds to old index `i` when `i < k` and to `i + 1`
otherwise. -/
def shiftIdx (k i : ℕ) : ℕ := if i < k then i else i + 1

theorem getD_eraseIdx_shift {α : Type} (l : List α) (k i : ℕ) (d : α)
    (hk : k < l.length) : (l.eraseIdx k).getD i d = l.getD (shiftIdx k i) d := by
  unfold shiftIdx
  by_cases h : i < k
  · rw [if_pos h, getD_eraseIdx_lt l k i d h]
  · rw [if_neg h, getD_eraseIdx_ge l k i d (Nat.le_of_not_lt h) hk]

/-- C7: deleting an in-range vertex `k` of a well-formed `N`-vertex graph
leaves `N − 1` vertices, and every surviving multiplicity is the old one
under the shifted indexing (`shiftIdx`: indices above `k` move down by one,
indices below `k` are unchanged). -/
theorem deleteVertex_shifts_indices (g : V1.Graph) (k : ℤ)
    (h0 : 0 ≤ k) (hk : k < (g.Vertices.length : ℤ))
    (hsq : SquareM g.AdjMatrix g.Vertices.length) :
    (V1.DeleteVertex g k).Vertices.length = g.Vertices.length - 1
    ∧ ∀ i j : ℕ, i < g.Vertices.length - 1 → j < g.Vertices.length - 1 →
      getEntry (V1.DeleteVertex g k).AdjMatrix i j
        = getEntry g.AdjMatrix (shiftIdx k.toNat i) (shiftIdx k.toNat j) := by
  have hguard : ¬(k < 0 ∨ (g.Vertices.length : ℤ) ≤ k) := by omega
  have hkv : k.toNat < g.Vertices.length := by omega
  have hkm : k.toNat < g.AdjMatrix.length := by rw [hsq.1]; omega
  simp only [V1.DeleteVertex, if_neg hguard]
  refine ⟨length_eraseIdx_lt _ _ hkv, fun i j hi hj => ?_⟩
  unfold getEntry
  have hlen' : i < (g.AdjMatrix.eraseIdx k.toNat).length := by
    rw [length_eraseIdx_lt _ _ hkm, hsq.1]; omega
  rw [getD_map (fun row => row.eraseIdx k.toNat) _ i [] [] hlen',
    getD_eraseIdx_shift _ _ _ _ hkm]
  have hshift : shiftIdx k.toNat i < g.AdjMatrix.length := by
    rw [hsq.1]; unfold shiftIdx; split <;> omega
  have hrowlen : (g.AdjMatrix.getD (shiftIdx k.toNat i) []).length
      = g.Vertices.length := hsq.2 _ (getD_mem _ _ _ hshift)
  rw [getD_eraseIdx_shift _ _ _ _ (by rw [hrowlen]; omega)]

/-- The three-vertex graph with edges (0,2) and (1,2), used as the C7
witness input. -/
noncomputable def gThreeE : V1.Graph :=
  V1.AddEdge (V1.AddEdge (V1.AddVertex gTwo 50 50 "V3" redC) 0 2) 1 2

/-- C7 witness: deleting vertex 1 of the concrete three-vertex graph. -/
theorem deleteVertex_shifts_indices_witness :
    (V1.DeleteVertex gThreeE 1).Vertices.length = gThreeE.Vertices.length - 1
    ∧ ∀ i j : ℕ, i < gThreeE.Vertices.length - 1 → j < gThreeE.Vertices.length - 1 →
      getEntry (V1.DeleteVertex gThreeE 1).AdjMatrix i j
        = getEntry gThreeE.AdjMatrix (shiftIdx (1 : ℤ).toNat i) (shiftIdx (1 : ℤ).toNat j) :=
  deleteVertex_shifts_indices gThreeE 1 (by decide) (by decide) (by decide)

/-- C6 witness: on the concrete two-vertex graph, index 5 (too large) and
index −1 (negative) leave the graph untouched for all three operations. -/
theorem out_of_range_ops_are_noops_witness :
    V1.DeleteVertex gTwo 5 = gTwo
    ∧ V1.AddEdge gTwo (-1) 0 = gTwo
    ∧ V1.DeleteEdge gTwo 0 5 = gTwo :=
  ⟨(out_of_range_ops_are_noops gTwo 5 0).1 (by decide),
    ((out_of_range_ops_are_noops gTwo (-1) 0).2 (by decide)).1,
    ((out_of_range_ops_are_noops gTwo 0 5).2 (by decide)).2⟩

/-! ### The edge-geometry engine -/

/-- Go's `math.Hypot(a, b)`, idealized over ℝ. -/
noncomputable def hypot (a b : ℝ) : ℝ := Real.sqrt (a ^ 2 + b ^ 2)

/-- `func pointToLineDistance(mx, my, x1, y1, x2, y2 float64) float64`:
point-to-segment distance by projection, with the parameter clamped to
[0, 1], and the distance to the endpoint when the segment is degenerate. -/
noncomputable def pointToLineDistance (mx my x1 y1 x2 y2 : ℝ) : ℝ :=
  let lineLength := hypot (x2 - x1) (y2 - y1)
  if lineLength = 0 then hypot (mx - x1) (my - y1)
  else
    let t0 := ((mx - x1) * (x2 - x1) + (my - y1) * (y2 - y1)) / (lineLength * lineLength)
    let t := max 0 (min 1 t0)
    hypot (mx - (x1 + t * (x2 - x1))) (my - (y1 + t * (y2 - y1)))

theorem hypot_self_eq_zero (x y : ℝ) : hypot (x - x) (y - y) = 0 := by
  simp [hypot]

/-- The degenerate branch of `pointToLineDistance`: when the two segment
endpoints coincide, the function returns the distance from the query point
to that endpoint. -/
theorem ptld_degenerate (mx my x y : ℝ) :
    pointToLineDistance mx my x y x y = hypot (mx - x) (my - y) := by
  simp only [pointToLineDistance]
  rw [if_pos (hypot_self_eq_zero x y)]

/-- The clamped branch of `pointToLineDistance`: when the raw projection
parameter is at least 1 (the projection falls beyond the second endpoint),
the function returns the distance to that endpoint. -/
theorem ptld_clamped (mx my x1 y1 x2 y2 : ℝ)
    (hs : (x2 - x1) ^ 2 + (y2 - y1) ^ 2 ≠ 0)
    (ht : 1 ≤ ((mx - x1) * (x2 - x1) + (my - y1) * (y2 - y1))
      / ((x2 - x1) ^ 2 + (y2 - y1) ^ 2)) :
    pointToLineDistance mx my x1 y1 x2 y2 = hypot (mx - x2) (my - y2) := by
  have hs0 : (0 : ℝ) ≤ (x2 - x1) ^ 2 + (y2 - y1) ^ 2 := by positivity
  have hL : hypot (x2 - x1) (y2 - y1) ≠ 0 := by
    intro h
    exact hs (le_antisymm (Real.sqrt_eq_zero'.mp h) hs0)
  have hmul : hypot (x2 - x1) (y2 - y1) * hypot (x2 - x1) (y2 - y1)
      = (x2 - x1) ^ 2 + (y2 - y1) ^ 2 := Real.mul_self_sqrt hs0
  simp only [pointToLineDistance]
  rw [if_neg hL, hmul, min_eq_left ht, max_eq_right zero_le_one]
  unfold hypot
  congr 1
  ring

/-- Distance from `(50, h)` to the segment from `(0, 0)` to `(100, 0)`:
the projection lands at the midpoint, so the answer is `√(h²)`. -/
theorem ptld_mid (h : ℝ) : pointToLineDistance 50 h 0 0 100 0 = Real.sqrt (h ^ 2) := by
  simp only [pointToLineDistance, hypot]
  rw [show ((100 : ℝ) - 0) ^ 2 + (0 - 0) ^ 2 = 100 ^ 2 by norm_num,
    Real.sqrt_sq (by norm_num : (0 : ℝ) ≤ 100),
    if_neg (by norm_num : (100 : ℝ) ≠ 0)]
  rw [show ((50 : ℝ) - 0) * (100 - 0) + (h - 0) * (0 - 0) = 5000 by ring,
    show (100 : ℝ) * 100 = 10000 by norm_num,
    show (5000 : ℝ) / 10000 = 1 / 2 by norm_num,
    show min (1 : ℝ) (1 / 2) = 1 / 2 by norm_num [min_def],
    show max (0 : ℝ) (1 / 2) = 1 / 2 by norm_num [max_def]]
  congr 1
  ring

/-! ### C9 — the point-to-segment distance function -/

/-- C9 counterexample: the claim says the function returns 0 whenever the
segment is degenerate (`A == B`), but at `P = (3, 4)`, `A = B = (0, 0)` the
code returns the distance from `P` to the coincident point, which is 5. -/
theorem degenerate_distance_not_zero : pointToLineDistance 3 4 0 0 0 0 ≠ 0 := by
  rw [ptld_degenerate 3 4 0 0]
  rw [show hypot (3 - 0) (4 - 0) = Real.sqrt 25 by unfold hypot; norm_num,
    show (25 : ℝ) = 5 ^ 2 by norm_num, Real.sqrt_sq (by norm_num : (0 : ℝ) ≤ 5)]
  norm_num

/-- C9 amended: `pointToLineDistance` returns 10 in the perpendicular case
`P = (50,10)`, `A = (0,0)`, `B = (100,0)`; it returns the distance to `B`
whenever the raw projection parameter is ≥ 1 (clamped projection); and when
`A == B` it returns the distance from `P` to the coincident point (0 exactly
when `P = A`), not always 0. -/
theorem pointToLineDistance_cases :
    pointToLineDistance 50 10 0 0 100 0 = 10
    ∧ (∀ mx my x1 y1 x2 y2 : ℝ, (x2 - x1) ^ 2 + (y2 - y1) ^ 2 ≠ 0 →
        1 ≤ ((mx - x1) * (x2 - x1) + (my - y1) * (y2 - y1))
          / ((x2 - x1) ^ 2 + (y2 - y1) ^ 2) →
        pointToLineDistance mx my x1 y1 x2 y2 = hypot (mx - x2) (my - y2))
    ∧ (∀ mx my x y : ℝ, pointToLineDistance mx my x y x y = hypot (mx - x) (my - y)) := by
  refine ⟨?_, ptld_clamped, ptld_degenerate⟩
  rw [ptld_mid 10, Real.sqrt_sq (by norm_num : (0 : ℝ) ≤ 10)]

/-- C9 witness: the clamped branch at the concrete point `(150, 10)` beyond
endpoint `B = (100, 0)` of the segment from `(0, 0)`. -/
theorem pointToLineDistance_cases_witness :
    pointToLineDistance 150 10 0 0 100 0 = hypot (150 - 100) (10 - 0) :=
  pointToLineDistance_cases.2.1 150 10 0 0 100 0 (by norm_num) (by norm_num)

/-! ### C4 — parallel-edge control points: drawing vs hit-testing -/

/-- The control point of the `k`-th parallel-edge curve as `DrawEdges`
draws it: `offset := float64(20 * (k - count/2))`, control =
`((x1+x2)/2 + offset, (y1+y2)/2 - offset)`. -/
noncomputable def drawParallelControl (x1 y1 x2 y2 : ℝ) (count k : ℕ) : ℝ × ℝ :=
  let off : ℝ := ((20 * ((k : ℤ) - (count / 2 : ℕ)) : ℤ) : ℝ)
  ((x1 + x2) / 2 + off, (y1 + y2) / 2 - off)

/-- The control point of the `k`-th parallel-edge curve as the delete-edge
hit-test reconstructs it: `offset := float64(15 * (k - count/2))`, control =
`((x1+x2)/2 + offset, (y1+y2)/2 - offset)`. -/
noncomputable def hitParallelControl (x1 y1 x2 y2 : ℝ) (count k : ℕ) : ℝ × ℝ :=
  let off : ℝ := ((15 * ((k : ℤ) - (count / 2 : ℕ)) : ℤ) : ℝ)
  ((x1 + x2) / 2 + off, (y1 + y2) / 2 - off)

/-- C4: the code violates the claim.  For multiplicity 2, curve index 0,
`P_i = (0,0)`, `P_j = (100,0)`, the drawn curve's control point is `(30, 20)`
(offset step 20) while the hit-tested curve's control point is `(35, 15)`
(offset step 15): the draw path and the hit-test path use different fixed
steps, so they are not identical. -/
theorem parallel_draw_hit_step_mismatch :
    drawParallelControl 0 0 100 0 2 0 = (30, 20)
    ∧ hitParallelControl 0 0 100 0 2 0 = (35, 15)
    ∧ drawParallelControl 0 0 100 0 2 0 ≠ hitParallelControl 0 0 100 0 2 0 := by
  refine ⟨?_, ?_, ?_⟩ <;>
    simp only [drawParallelControl, hitParallelControl, Prod.ext_iff, Ne] <;>
    norm_num

/-! ### C8 — loop geometry: drawing vs hit-testing -/

/-- A cubic Bézier loop curve: endpoints `(x1,y1)`, `(x2,y2)` and two
control points, in the argument order of `DrawQuadraticBézierEdge` /
`pointToQuadraticBezierDistance`. -/
structure LoopCurve where
  x1 : ℝ
  y1 : ℝ
  x2 : ℝ
  y2 : ℝ
  cxLeft : ℝ
  cyLeft : ℝ
  cxRight : ℝ
  cyRight : ℝ

/-- The center angle of the `k`-th of `count` loops: `k · (2π / count)`. -/
noncomputable def loopCenterAngle (count k : ℕ) : ℝ :=
  (k : ℝ) * (2 * Real.pi / (count : ℝ))

/-- The `k`-th loop curve exactly as `DrawLoopEdge` draws it: center angle
`k·(2π/count)`, control angles `±π/10` around it, control points at
distance 60 from the vertex, both endpoints at the vertex. -/
noncomputable def DrawLoopEdgeCurve (x y : ℝ) (count k : ℕ) : LoopCurve :=
  let angleOffset := (k : ℝ) * (2 * Real.pi / (count : ℝ))
  let angleLeft := angleOffset - Real.pi / 10
  let angleRight := angleOffset + Real.pi / 10
  { x1 := x, y1 := y, x2 := x, y2 := y
    cxLeft := x + 60 * Real.cos angleLeft
    cyLeft := y + 60 * Real.sin angleLeft
    cxRight := x + 60 * Real.cos angleRight
    cyRight := y + 60 * Real.sin angleRight }

/-- The `k`-th loop curve exactly as the delete-edge handler's loop pass
reconstructs it for hit-testing (`HandleMouseInput`, `ToolDeleteEdge`). -/
noncomputable def deleteLoopHitCurve (x y : ℝ) (count k : ℕ) : LoopCurve :=
  let angleOffset := (k : ℝ) * (2 * Real.pi / (count : ℝ))
  let angleLeft := angleOffset - Real.pi / 10
  let angleRight := angleOffset + Real.pi / 10
  { x1 := x, y1 := y, x2 := x, y2 := y
    cxLeft := x + 60 * Real.cos angleLeft
    cyLeft := y + 60 * Real.sin angleLeft
    cxRight := x + 60 * Real.cos angleRight
    cyRight := y + 60 * Real.sin angleRight }

theorem hypot_cos_sin (a : ℝ) : hypot (60 * Real.cos a) (60 * Real.sin a) = 60 := by
  unfold hypot
  rw [show (60 * Real.cos a) ^ 2 + (60 * Real.sin a) ^ 2
      = 3600 * (Real.sin a ^ 2 + Real.cos a ^ 2) by ring,
    Real.sin_sq_add_cos_sq,
    show (3600 : ℝ) * 1 = 60 ^ 2 by norm_num,
    Real.sqrt_sq (by norm_num : (0 : ℝ) ≤ 60)]

/-- C8: for every vertex position `(x, y)` and loop multiplicity `m ≥ 1`,
the `k`-th loop curve used for hit-testing is identical to the drawn one;
both endpoints equal the vertex; the two control points lie at distance 60
from the vertex at angles `θ_k ∓ π/10` around the center angle
`θ_k = k·(2π/m)`; and consecutive center angles are spaced by exactly
`2π/m`. -/
theorem loop_geometry_draw_equals_hit (x y : ℝ) (m k : ℕ)
    (hm : 0 < m) (hk : k < m) :
    DrawLoopEdgeCurve x y m k = deleteLoopHitCurve x y m k
    ∧ (DrawLoopEdgeCurve x y m k).x1 = x
    ∧ (DrawLoopEdgeCurve x y m k).y1 = y
    ∧ (DrawLoopEdgeCurve x y m k).x2 = x
    ∧ (DrawLoopEdgeCurve x y m k).y2 = y
    ∧ (DrawLoopEdgeCurve x y m k).cxLeft
        = x + 60 * Real.cos (loopCenterAngle m k - Real.pi / 10)
    ∧ (DrawLoopEdgeCurve x y m k).cyLeft
        = y + 60 * Real.sin (loopCenterAngle m k - Real.pi / 10)
    ∧ (DrawLoopEdgeCurve x y m k).cxRight
        = x + 60 * Real.cos (loopCenterAngle m k + Real.pi / 10)
    ∧ (DrawLoopEdgeCurve x y m k).cyRight
        = y + 60 * Real.sin (loopCenterAngle m k + Real.pi / 10)
    ∧ hypot ((DrawLoopEdgeCurve x y m k).cxLeft - x)
        ((DrawLoopEdgeCurve x y m k).cyLeft - y) = 60
    ∧ hypot ((DrawLoopEdgeCurve x y m k).cxRight - x)
        ((DrawLoopEdgeCurve x y m k).cyRight - y) = 60
    ∧ loopCenterAngle m (k + 1) - loopCenterAngle m k = 2 * Real.pi / (m : ℝ) := by
  refine ⟨rfl, rfl, rfl, rfl, rfl, rfl, rfl, rfl, rfl, ?_, ?_, ?_⟩
  · simp only [DrawLoopEdgeCurve]
    rw [add_sub_cancel_left, add_sub_cancel_left, hypot_cos_sin]
  · simp only [DrawLoopEdgeCurve]
    rw [add_sub_cancel_left, add_sub_cancel_left, hypot_cos_sin]
  · simp only [loopCenterAngle]
    push_cast
    ring

/-- C8 witness: the loop facts at the concrete vertex `(0, 0)` with
multiplicity 2 and loop index 0. -/
theorem loop_geometry_draw_equals_hit_witness :
    DrawLoopEdgeCurve 0 0 2 0 = deleteLoopHitCurve 0 0 2 0
    ∧ (DrawLoopEdgeCurve 0 0 2 0).x1 = 0
    ∧ (DrawLoopEdgeCurve 0 0 2 0).y1 = 0
    ∧ (DrawLoopEdgeCurve 0 0 2 0).x2 = 0
    ∧ (DrawLoopEdgeCurve 0 0 2 0).y2 = 0
    ∧ (DrawLoopEdgeCurve 0 0 2 0).cxLeft
        = 0 + 60 * Real.cos (loopCenterAngle 2 0 - Real.pi / 10)
    ∧ (DrawLoopEdgeCurve 0 0 2 0).cyLeft
        = 0 + 60 * Real.sin (loopCenterAngle 2 0 - Real.pi / 10)
    ∧ (DrawLoopEdgeCurve 0 0 2 0).cxRight
        = 0 + 60 * Real.cos (loopCenterAngle 2 0 + Real.pi / 10)
    ∧ (DrawLoopEdgeCurve 0 0 2 0).cyRight
        = 0 + 60 * Real.sin (loopCenterAngle 2 0 + Real.pi / 10)
    ∧ hypot ((DrawLoopEdgeCurve 0 0 2 0).cxLeft - 0)
        ((DrawLoopEdgeCurve 0 0 2 0).cyLeft - 0) = 60
    ∧ hypot ((DrawLoopEdgeCurve 0 0 2 0).cxRight - 0)
        ((DrawLoopEdgeCurve 0 0 2 0).cyRight - 0) = 60
    ∧ loopCenterAngle 2 (0 + 1) - loopCenterAngle 2 0 = 2 * Real.pi / ((2 : ℕ) : ℝ) :=
  loop_geometry_draw_equals_hit 0 0 2 0 (by decide) (by decide)

/-! ### C10 — the delete-edge click handler -/

/-- The parameter samples of every Bézier loop in the program:
`for t := 0.0; t <= 1.0; t += 0.001`, idealized as `k/1000` for
`k = 0 … 1000`. -/
noncomputable def sampleTs : List ℝ := (List.range 1001).map (fun n => (n : ℝ) / 1000)

/-- The minimum of a list of distances (the Go code starts from `+Inf` and
folds `min`; over a nonempty list that is the least element, and the sample
list is never empty). -/
noncomputable def listMin : List ℝ → ℝ
  | [] => 0
  | d :: ds => ds.foldl min d

/-- `func pointToBezierDistance(mx, my, x1, y1, x2, y2, cx, cy float64)`:
minimum distance from the point to the sampled quadratic Bézier curve. -/
noncomputable def pointToBezierDistance (mx my x1 y1 x2 y2 cx cy : ℝ) : ℝ :=
  listMin (sampleTs.map (fun t =>
    hypot (mx - ((1 - t) * (1 - t) * x1 + 2 * (1 - t) * t * cx + t * t * x2))
      (my - ((1 - t) * (1 - t) * y1 + 2 * (1 - t) * t * cy + t * t * y2))))

/-- Which test detected the click on a pair: the straight chord, or the
`k`-th offset curve. -/
inductive HitKind where
  | line : HitKind
  | curve : ℕ → HitKind

/-- The delete-edge handler's per-pair test for a non-loop pair `(i, j)`
with `AdjMatrix[i][j] = count > 0`: first the straight segment from `v1` to
`v2` against threshold 10, then each of the `count` offset Bézier curves
(offset step 15) in order of `k`. -/
noncomputable def pairCheck (mx my : ℝ) (v1 v2 : Vertex) (count : ℕ) : Option HitKind :=
  if pointToLineDistance mx my v1.X v1.Y v2.X v2.Y < 10 then some HitKind.line
  else
    ((List.range count).find? (fun k =>
      decide (pointToBezierDistance mx my v1.X v1.Y v2.X v2.Y
        (hitParallelControl v1.X v1.Y v2.X v2.Y count k).1
        (hitParallelControl v1.X v1.Y v2.X v2.Y count k).2 < 10))).map HitKind.curve

/-- The non-loop scan of the delete-edge handler over a worklist of ordered
pairs: skip `i == j`, skip pairs with no edge, and return (deleting and
stopping) at the first pair whose test hits. -/
noncomputable def scanPairsAux (g : V1.Graph) (mx my : ℝ) :
    List (ℕ × ℕ) → Option (ℕ × ℕ × HitKind)
  | [] => none
  | (i, j) :: rest =>
    if i = j then scanPairsAux g mx my rest
    else if 0 < getEntry g.AdjMatrix i j then
      match pairCheck mx my (g.Vertices.getD i default) (g.Vertices.getD j default)
          (getEntry g.AdjMatrix i j).toNat with
      | some hk => some (i, j, hk)
      | none => scanPairsAux g mx my rest
    else scanPairsAux g mx my rest

/-- The row-major worklist of ordered pairs the handler's nested loops
visit: `(i, j)` for `i` in `[0, n)`, `j` in `[0, n)`. -/
def pairOrder (n : ℕ) : List (ℕ × ℕ) :=
  (List.range n).flatMap (fun i => (List.range n).map (fun j => (i, j)))

/-- The whole non-loop pass of the delete-edge handler. -/
noncomputable def deleteEdgeScan (g : V1.Graph) (mx my : ℝ) : Option (ℕ × ℕ × HitKind) :=
  scanPairsAux g mx my (pairOrder g.Vertices.length)

/-- One drawable edge path of `DrawEdges`. -/
inductive EdgePath where
  | segment (x1 y1 x2 y2 : ℝ)
  | quad (x1 y1 x2 y2 cx cy : ℝ)
  | cubic (x1 y1 x2 y2 cx1 cy1 cx2 cy2 : ℝ)

/-- Whether a path is the straight-segment kind. -/
def EdgePath.isSegmentPath : EdgePath → Bool
  | .segment _ _ _ _ => true
  | _ => false

/-- What `DrawEdges` draws for the ordered pair `(i, j)` with multiplicity
`count`: nothing for 0; `count` loop cubics when `i == j`; one straight
segment when `count == 1`; otherwise `count` offset quadratic curves
(offset step 20). -/
noncomputable def drawPathsForPair (v1 v2 : Vertex) (i j : ℕ) (count : ℕ) : List EdgePath :=
  if count = 0 then []
  else if i = j then
    (List.range count).map (fun k =>
      EdgePath.cubic v1.X v1.Y v1.X v1.Y
        (DrawLoopEdgeCurve v1.X v1.Y count k).cxLeft
        (DrawLoopEdgeCurve v1.X v1.Y count k).cyLeft
        (DrawLoopEdgeCurve v1.X v1.Y count k).cxRight
        (DrawLoopEdgeCurve v1.X v1.Y count k).cyRight)
  else if count = 1 then [EdgePath.segment v1.X v1.Y v2.X v2.Y]
  else
    (List.range count).map (fun k =>
      EdgePath.quad v1.X v1.Y v2.X v2.Y
        (drawParallelControl v1.X v1.Y v2.X v2.Y count k).1
        (drawParallelControl v1.X v1.Y v2.X v2.Y count k).2)

theorem length_matModify (f : ℤ → ℤ) (i j : ℕ) (m : List (List ℤ)) :
    (matModify f i j m).length = m.length :=
  length_listModify _ i m

theorem length_getD_matModify (f : ℤ → ℤ) (i j p : ℕ) (m : List (List ℤ)) :
    ((matModify f i j m).getD p []).length = (m.getD p []).length := by
  unfold matModify
  by_cases hpi : p = i
  · subst hpi
    by_cases hlen : p < m.length
    · rw [getD_listModify_self _ p m [] hlen, length_listModify]
    · rw [listModify_of_length_le _ p m (Nat.le_of_not_lt hlen)]
  · rw [getD_listModify_ne _ p i m [] hpi]

/-- C10: in the delete-edge handler, (1) the straight chord is tested before
any offset curve, whatever the multiplicity: a click within distance 10 of
the chord makes the per-pair test report a line hit; (2) yet for
multiplicity ≥ 2 none of the drawn paths of that pair is a straight segment;
(3) the scan over the pair worklist returns at the first pair whose test
hits, without looking at the rest; (4) the `DeleteEdge` the handler then
performs removes exactly one unit of multiplicity from both mirrored
entries. -/
theorem delete_click_hits_straight_chord_first :
    (∀ (mx my : ℝ) (v1 v2 : Vertex) (count : ℕ),
      pointToLineDistance mx my v1.X v1.Y v2.X v2.Y < 10 →
      pairCheck mx my v1 v2 count = some HitKind.line)
    ∧ (∀ (v1 v2 : Vertex) (i j count : ℕ), i ≠ j → 2 ≤ count →
      ∀ p ∈ drawPathsForPair v1 v2 i j count, p.isSegmentPath = false)
    ∧ (∀ (g : V1.Graph) (mx my : ℝ) (i j : ℕ) (rest : List (ℕ × ℕ)) (hk : HitKind),
      i ≠ j → 0 < getEntry g.AdjMatrix i j →
      pairCheck mx my (g.Vertices.getD i default) (g.Vertices.getD j default)
        (getEntry g.AdjMatrix i j).toNat = some hk →
      scanPairsAux g mx my ((i, j) :: rest) = some (i, j, hk))
    ∧ (∀ (g : V1.Graph) (i j : ℤ), 0 ≤ i → 0 ≤ j →
      i < (g.Vertices.length : ℤ) → j < (g.Vertices.length : ℤ) → i ≠ j →
      SquareM g.AdjMatrix g.Vertices.length →
      getEntry (V1.DeleteEdge g i j).AdjMatrix i.toNat j.toNat
          = getEntry g.AdjMatrix i.toNat j.toNat - 1
        ∧ getEntry (V1.DeleteEdge g i j).AdjMatrix j.toNat i.toNat
          = getEntry g.AdjMatrix j.toNat i.toNat - 1) := by
  refine ⟨?_, ?_, ?_, ?_⟩
  · intro mx my v1 v2 count h
    simp only [pairCheck, if_pos h]
  · intro v1 v2 i j count hij hcount p hp
    have h0 : ¬count = 0 := by omega
    have h1 : ¬count = 1 := by omega
    simp only [drawPathsForPair, if_neg h0, if_neg hij, if_neg h1] at hp
    obtain ⟨k, _, rfl⟩ := List.mem_map.mp hp
    rfl
  · intro g mx my i j rest hk hij hpos hhit
    simp only [scanPairsAux, if_neg hij, if_pos hpos, hhit]
  · intro g i j h0i h0j hi hj hij hsq
    have hguard : ¬(i < 0 ∨ j < 0 ∨ (g.Vertices.length : ℤ) ≤ i
        ∨ (g.Vertices.length : ℤ) ≤ j) := by omega
    have hij' : i.toNat ≠ j.toNat := by omega
    have hilen : i.toNat < g.AdjMatrix.length := by rw [hsq.1]; omega
    have hjlen : j.toNat < g.AdjMatrix.length := by rw [hsq.1]; omega
    have hirow : j.toNat < (g.AdjMatrix.getD i.toNat []).length := by
      rw [hsq.2 _ (getD_mem _ _ _ hilen)]; omega
    have hjrow : i.toNat < (g.AdjMatrix.getD j.toNat []).length := by
      rw [hsq.2 _ (getD_mem _ _ _ hjlen)]; omega
    simp only [V1.DeleteEdge, if_neg hguard, if_neg hij]
    constructor
    · rw [getEntry_matModify_ne _ _ _ _ _ _ (fun hpq => hij' hpq.1),
        getEntry_matModify_self _ _ _ _ hilen hirow]
    · rw [getEntry_matModify_self _ _ _ _
          (by rw [length_matModify]; exact hjlen)
          (by rw [length_getD_matModify]; exact hjrow),
        getEntry_matModify_ne _ _ _ _ _ _ (fun hpq => hij' hpq.2)]

/-- C10 witness: at the click `(50, 5)` — within distance 5 of the straight
chord from `(0,0)` to `(100,0)` — the per-pair test of a 3-edge bundle
reports a line hit. -/
theorem delete_click_hits_straight_chord_first_witness :
    pairCheck 50 5 ⟨0, 0, "V1", redC⟩ ⟨100, 0, "V2", redC⟩ 3 = some HitKind.line :=
  delete_click_hits_straight_chord_first.1 50 5 ⟨0, 0, "V1", redC⟩ ⟨100, 0, "V2", redC⟩ 3
    (by
      show pointToLineDistance 50 5 0 0 100 0 < 10
      rw [ptld_mid 5, Real.sqrt_sq (by norm_num : (0 : ℝ) ≤ 5)]
      norm_num)
